import Mathlib

/-!
Shallow embedding of the bitfield C++20 library (headers bits.hpp, bit_field.hpp,
bit_field_builder.hpp).

Scalar types are modelled by their bit width `w`; a value of such a type is a `Nat`
below `2 ^ w`.  C++ `static_cast` to an unsigned type of width `w` is reduction
modulo `2 ^ w`.  The `int` type used by integral promotion is 32 bits wide (as on
every platform the library supports), and C++20 two-complement semantics apply, so
a signed left shift wraps modulo `2 ^ 32` and a shift count of 32 or more is
undefined behavior, which a constant-evaluated initializer must reject.
`Option` models rejection at definition time: `none` means the instantiation does
not compile (a `requires` clause fails or constant evaluation hits undefined
behavior).
-/

namespace BitField

/-- C++20 value of the expression `1 << i` at type `int` (32-bit, two-complement
wrap); `none` when `i ≥ 32`, where the shift is undefined behavior and the
constant-evaluated initializer of `bit_mask` is rejected. -/
def cpp_shl1 (i : Nat) : Option Int :=
  if i < 32 then
    some ((Int.ofNat (2 ^ i) + Int.ofNat (2 ^ 31)) % Int.ofNat (2 ^ 32) - Int.ofNat (2 ^ 31))
  else none

/-- C++ `static_cast` of a (possibly negative) integer value to an unsigned
integer type of bit width `w`: reduction modulo `2 ^ w`. -/
def cpp_cast (w : Nat) (x : Int) : Nat :=
  (x % Int.ofNat (2 ^ w)).toNat

/-- Loop of `bit_mask` in bits.hpp: `value |= static_cast<T>(1 << i)` for
`i` in `[start, start + n)`, accumulating into a value of width `w`. -/
def bit_mask_loop (w start : Nat) : Nat → Option Nat
  | 0 => some 0
  | n + 1 =>
    match bit_mask_loop w start n, cpp_shl1 (start + n) with
    | some v, some s => some (v ||| cpp_cast w s)
    | _, _ => none

/-- `bit_mask<T, NStart, NCount>` from bits.hpp for an unsigned type `T` of width
`w`.  The `requires` clause demands `NCount > 0` and `NStart + NCount ≤ w`;
`none` models rejection at definition time, either by the `requires` clause or
by undefined behavior inside the constant-evaluated loop. -/
def bit_mask (w start count : Nat) : Option Nat :=
  if 0 < count ∧ start + count ≤ w then bit_mask_loop w start count else none

/-- `extract_bits<NBits, NSourceOffset, TSource, TDestination, NDestinationOffset,
BSkipMask>` from bits.hpp, with `ws`/`wd` the widths of the source/destination
types.  The mask is instantiated unconditionally (it is a `constexpr` local even
when `BSkipMask` is true).  The three branches follow the sign of
`shift = NSourceOffset - NDestinationOffset`: no shift, right-shift before the
narrowing cast, or cast before the widening left shift (the final `static_cast`
to the destination type reduces modulo `2 ^ wd` in every branch). -/
def extract_bits (nbits soff : Nat) (ws wd doff : Nat) (skipMask : Bool) (source : Nat) :
    Option Nat :=
  if 0 < nbits ∧ nbits + soff ≤ ws ∧ nbits + doff ≤ wd then
    match bit_mask ws soff nbits with
    | some m =>
      let source_bits := if skipMask then source else source &&& m
      if soff = doff then some (source_bits % 2 ^ wd)
      else if doff < soff then some ((source_bits >>> (soff - doff)) % 2 ^ wd)
      else some (((source_bits % 2 ^ wd) <<< (doff - soff)) % 2 ^ wd)
    | none => none
  else none

/-- `bit_field_assignment_strategy` from bit_field.hpp (exceptions enabled). -/
inductive assignment_strategy where
  | unchecked
  | mask
  | return_bool
  | exception
  | no_override
deriving DecidableEq

/-- Offset sentinel `no_override` from bit_field.hpp:
`std::numeric_limits<std::size_t>::max()` with a 64-bit `size_t`. -/
def no_override : Nat := 2 ^ 64 - 1

/-- Offset sentinel `no_shift` from bit_field.hpp: `no_override - 1`. -/
def no_shift : Nat := no_override - 1

/-- `bit_field_config<TBitFieldType>` from bit_field.hpp.  The result type is
modelled by its width; `none` stands for `void` (use the default). -/
structure bit_field_config where
  typeWidth : Option Nat
  offset : Nat
  strategy : assignment_strategy
deriving DecidableEq

/-- The default `bit_field_config{}`: type `void`, offset `no_override`,
strategy `no_override`. -/
def default_config : bit_field_config :=
  ⟨none, no_override, assignment_strategy.no_override⟩

/-- `bit_field::effective_offset` from bit_field.hpp: resolve the call-site
config offset against the field default offset, with `no_override` deferring
one layer down (ending at the process-wide default 0) and `no_shift` resolving
to the field storage offset `foffset` at either layer. -/
def effective_offset (foffset dfltOff cfgOff : Nat) : Nat :=
  if cfgOff = no_override then
    if dfltOff = no_override then 0
    else if dfltOff = no_shift then foffset
    else dfltOff
  else if cfgOff = no_shift then foffset
  else cfgOff

/-- `bit_field::effective_strategy` from bit_field.hpp; the process-wide
fallback `BIT_FIELD_DEFAULT_STRATEGY` is `mask` (config.hpp). -/
def effective_strategy (dfltStrat cfgStrat : assignment_strategy) : assignment_strategy :=
  if cfgStrat = assignment_strategy.no_override then
    if dfltStrat = assignment_strategy.no_override then assignment_strategy.mask
    else dfltStrat
  else cfgStrat

/-- `bit_field::effective_storage` from bit_field.hpp: result type of a `get`,
by width; a `void` (`none`) config type defers to the field default and then to
the storage type itself. -/
def effective_storage (wStorage : Nat) (dflt cfg : bit_field_config) : Nat :=
  match cfg.typeWidth with
  | some w => w
  | none =>
    match dflt.typeWidth with
    | some w => w
    | none => wStorage

/-- `bit_field<NBits, NOffset, TDefaultConfig>::get<TConfig>` from bit_field.hpp:
delegates to `extract_bits` with the field span as source and the merged result
type and offset as destination.  Overriding the strategy in `TConfig` is
rejected by a `static_assert` (modelled by `none`). -/
def bit_field_get (nbits foffset : Nat) (dflt : bit_field_config) (wStorage : Nat)
    (cfg : bit_field_config) (value : Nat) : Option Nat :=
  if cfg.strategy = assignment_strategy.no_override then
    extract_bits nbits foffset wStorage (effective_storage wStorage dflt cfg)
      (effective_offset foffset dflt.offset cfg.offset) false value
  else none

/-- The `set_helper` lambda inside `bit_field::set_impl`:
`into = static_cast<TStorage>(into & ~bit_mask<TStorage, offset, bits>) |
extract_bits<bits, effective_offset, TValue, TStorage, offset, skip_mask>(value)`,
with `eo` the merged value offset and `wS`/`wV` the storage/value widths. -/
def set_helper (nbits foffset wS wV eo : Nat) (skipMask : Bool) (into value : Nat) :
    Option Nat :=
  match bit_mask wS foffset nbits, extract_bits nbits eo wV wS foffset skipMask value with
  | some m, some e => some ((into &&& ((2 ^ wS - 1) ^^^ m)) ||| e)
  | _, _ => none

/-- `bit_field<NBits, NOffset, TDefaultConfig>::set_impl<TConfig>` from
bit_field.hpp.  The result pairs a success flag with the final storage value:
`unchecked` and `mask` always succeed; `return_bool` returns the flag itself;
for `exception`, a `false` flag means `bit_field_error` was thrown and the
storage is unchanged.  Overriding the value type in `TConfig` is rejected by a
`static_assert`, and an unresolvable strategy fails a `static_assert` too
(both modelled by `none`). -/
def set_impl (nbits foffset wS wV : Nat) (dflt cfg : bit_field_config) (into value : Nat) :
    Option (Bool × Nat) :=
  if cfg.typeWidth.isSome then none
  else
    match effective_strategy dflt.strategy cfg.strategy with
    | assignment_strategy.unchecked =>
      Option.map (fun st => (true, st))
        (set_helper nbits foffset wS wV (effective_offset foffset dflt.offset cfg.offset)
          true into value)
    | assignment_strategy.mask =>
      Option.map (fun st => (true, st))
        (set_helper nbits foffset wS wV (effective_offset foffset dflt.offset cfg.offset)
          false into value)
    | assignment_strategy.return_bool | assignment_strategy.exception =>
      match bit_mask wV (effective_offset foffset dflt.offset cfg.offset) nbits with
      | some m =>
        if value &&& ((2 ^ wV - 1) ^^^ m) ≠ 0 then some (false, into)
        else
          Option.map (fun st => (true, st))
            (set_helper nbits foffset wS wV (effective_offset foffset dflt.offset cfg.offset)
              true into value)
      | none => none
    | assignment_strategy.no_override => none

/-- `detail::make_config<TDefaultConfig, TArgs...>` from bit_field_builder.hpp:
with no per-field config the class default is used unchanged; otherwise each
attribute of the given config overrides the default unless it is the
corresponding `no_override` sentinel (`void` for the type). -/
def make_config (dflt : bit_field_config) : Option bit_field_config → bit_field_config
  | none => dflt
  | some g =>
    ⟨if g.typeWidth.isSome then g.typeWidth else dflt.typeWidth,
     if g.offset ≠ no_override then g.offset else dflt.offset,
     if g.strategy ≠ assignment_strategy.no_override then g.strategy else dflt.strategy⟩

/-- One declaration inside a `bit_field_builder` derived class: a `BIT_FIELD`
with a bit count, or a `BIT_FIELD_PAD`. -/
inductive field_decl where
  | field (nbits : Nat)
  | pad (nbits : Nat)
deriving DecidableEq

/-- Number of bits a declaration consumes. -/
def decl_bits : field_decl → Nat
  | field_decl.field b => b
  | field_decl.pad b => b

/-- Total number of bits consumed by a declaration list. -/
def total_bits : List field_decl → Nat
  | [] => 0
  | d :: ds => decl_bits d + total_bits ds

/-- Sequential allocation done by the `BIT_FIELD` / `BIT_FIELD_PAD` macros of
bit_field_builder.hpp over the compile-time counter: the counter starts at 0,
each `BIT_FIELD` first checks `static_assert(counter + num_bits <= max_field)`,
creates a field at offset equal to the current counter, and advances the
counter; `BIT_FIELD_PAD` advances the counter without a check or a field.
Returns the final counter value with the `(bits, offset)` pair of each field;
`none` models a failing `static_assert`. -/
def alloc_fields (w : Nat) : Nat → List field_decl → Option (Nat × List (Nat × Nat))
  | c, [] => some (c, [])
  | c, field_decl.field b :: ds =>
    if c + b ≤ w then
      match alloc_fields w (c + b) ds with
      | some (fin, fs) => some (fin, (b, c) :: fs)
      | none => none
    else none
  | c, field_decl.pad b :: ds => alloc_fields w (c + b) ds

/-- `bit_field_builder::is_complete` from bit_field_builder.hpp: true when the
counter has reached `max_field`, the width of the storage type. -/
def is_complete (w : Nat) (ds : List field_decl) : Option Bool :=
  Option.map (fun p => p.1 == w) (alloc_fields w 0 ds)

/-- Field table as the spec describes it (spec-side definition, for comparison
with `alloc_fields`): each field is placed at the running sum `c` of the bit
counts of all earlier declarations, padding included. -/
def spec_field_offsets (c : Nat) : List field_decl → List (Nat × Nat)
  | [] => []
  | field_decl.field b :: ds => (b, c) :: spec_field_offsets (c + b) ds
  | field_decl.pad b :: ds => spec_field_offsets (c + b) ds

end BitField

namespace BitField

/-- A defined `1 << i` forces the shift count below the 32-bit width of int. -/
theorem cpp_shl1_lt_32 {i : Nat} {z : Int} (h : cpp_shl1 i = some z) : i < 32 := by
  by_cases hi : i < 32
  · exact hi
  · rw [cpp_shl1, if_neg hi] at h
    cases h

set_option maxRecDepth 8000

/-- For shift counts up to 30 the int expression `1 << i` is just `2 ^ i`. -/
theorem cpp_shl1_of_le_30 (i : Nat) (h : i ≤ 30) : cpp_shl1 i = some (Int.ofNat (2 ^ i)) := by
  rw [cpp_shl1, if_pos (by omega)]
  simp only [Int.ofNat_eq_coe]
  have hlt : (2 : Nat) ^ i + 2 ^ 31 < 2 ^ 32 := by
    have h1 : (2 : Nat) ^ i ≤ 2 ^ 30 := Nat.pow_le_pow_right (by omega) h
    have h2 : (2 : Nat) ^ 30 + 2 ^ 31 < 2 ^ 32 := by norm_num
    omega
  have he : (((2 ^ i : Nat) : Int) + ((2 ^ 31 : Nat) : Int)) % ((2 ^ 32 : Nat) : Int)
      = ((2 ^ i : Nat) : Int) + ((2 ^ 31 : Nat) : Int) := by
    apply Int.emod_eq_of_lt
    · exact Int.add_nonneg (Int.ofNat_nonneg _) (Int.ofNat_nonneg _)
    · rw [← Nat.cast_add]
      exact Nat.cast_lt.mpr hlt
  rw [he]
  rw [add_sub_cancel_right]

/-- At shift count 31 the int expression `1 << i` wraps to the negative value
`-(2 ^ 31)` (C++20 two-complement semantics). -/
theorem cpp_shl1_31 : cpp_shl1 31 = some (-(Int.ofNat (2 ^ 31))) := by decide

/-- Casting a small nonnegative value to width `w` is the identity. -/
theorem cpp_cast_ofNat (w n : Nat) (h : n < 2 ^ w) : cpp_cast w (Int.ofNat n) = n := by
  rw [cpp_cast]
  simp only [Int.ofNat_eq_coe]
  rw [← Int.ofNat_emod, Int.toNat_ofNat, Nat.mod_eq_of_lt h]

/-- Casting `-(2 ^ 31)` to an unsigned width of at least 32 sign-extends: the
result is `2 ^ w - 2 ^ 31`, with all bits 31 and above set. -/
theorem cpp_cast_neg_two_pow_31 (w : Nat) (h : 32 ≤ w) :
    cpp_cast w (-(Int.ofNat (2 ^ 31))) = 2 ^ w - 2 ^ 31 := by
  rw [cpp_cast]
  simp only [Int.ofNat_eq_coe]
  have h31 : (2 : Nat) ^ 31 ≤ 2 ^ w := Nat.pow_le_pow_right (by omega) (by omega)
  have key : (-((2 ^ 31 : Nat) : Int)) % ((2 ^ w : Nat) : Int) = ((2 ^ w - 2 ^ 31 : Nat) : Int) := by
    have e1 : ((2 ^ w - 2 ^ 31 : Nat) : Int) = -((2 ^ 31 : Nat) : Int) + ((2 ^ w : Nat) : Int) * 1 := by
      rw [Nat.cast_sub h31]
      ring
    calc (-((2 ^ 31 : Nat) : Int)) % ((2 ^ w : Nat) : Int)
        = (-((2 ^ 31 : Nat) : Int) + ((2 ^ w : Nat) : Int) * 1) % ((2 ^ w : Nat) : Int) :=
          (Int.add_mul_emod_self_left _ _ _).symm
      _ = ((2 ^ w - 2 ^ 31 : Nat) : Int) % ((2 ^ w : Nat) : Int) := by rw [← e1]
      _ = ((2 ^ w - 2 ^ 31 : Nat) : Int) := by
          apply Int.emod_eq_of_lt
          · exact Int.ofNat_nonneg _
          · have hp : (0 : Nat) < 2 ^ 31 := Nat.two_pow_pos 31
            have hq : (0 : Nat) < 2 ^ w := Nat.two_pow_pos w
            exact Nat.cast_lt.mpr (Nat.sub_lt hq hp)
  rw [key, Int.toNat_ofNat]

/-- Bit 31 of the sign-extended value `2 ^ w - 2 ^ 31` is set. -/
theorem testBit_two_pow_sub_two_pow (w : Nat) (h : 32 ≤ w) :
    (2 ^ w - 2 ^ 31).testBit 31 = true := by
  have e : 2 ^ w - 2 ^ 31 = (2 ^ (w - 31) - 1) <<< 31 := by
    rw [Nat.shiftLeft_eq]
    have hsplit : (2 : Nat) ^ w = 2 ^ (w - 31) * 2 ^ 31 := by
      rw [← Nat.pow_add]
      congr 1
      omega
    rw [hsplit, Nat.sub_mul, Nat.one_mul]
  rw [e, Nat.testBit_shiftLeft]
  simp only [ge_iff_le, Nat.le_refl, decide_True, Nat.sub_self, Nat.testBit_two_pow_sub_one,
    Bool.true_and]
  have : 0 < w - 31 := by omega
  simp [this]

/-- Every loop term of `bit_mask` has its own bit set: `static_cast<T>(1 << i)`
always contains bit `i` (possibly together with spurious higher bits). -/
theorem cpp_term_testBit (w i : Nat) (hi : i < w) {z : Int} (hz : cpp_shl1 i = some z) :
    (cpp_cast w z).testBit i = true := by
  have h32 : i < 32 := cpp_shl1_lt_32 hz
  rcases Nat.lt_or_ge i 31 with h30 | h31
  · rw [cpp_shl1_of_le_30 i (by omega)] at hz
    have hz2 : z = Int.ofNat (2 ^ i) := by
      cases hz
      rfl
    subst hz2
    rw [cpp_cast_ofNat w _ (Nat.pow_lt_pow_of_lt (by omega) hi)]
    exact Nat.testBit_two_pow_self
  · have h31e : i = 31 := by omega
    subst h31e
    rw [cpp_shl1_31] at hz
    have hz2 : z = -(Int.ofNat (2 ^ 31)) := by
      cases hz
      rfl
    subst hz2
    rw [cpp_cast_neg_two_pow_31 w (by omega)]
    exact testBit_two_pow_sub_two_pow w (by omega)

/-- Every bit of the requested range is set in the computed mask (the converse
fails: the mask may contain spurious high bits, see claim C5). -/
theorem bit_mask_loop_testBit (w s : Nat) :
    ∀ c m, bit_mask_loop w s c = some m → s + c ≤ w →
      ∀ i, s ≤ i → i < s + c → m.testBit i = true := by
  intro c
  induction c with
  | zero =>
    intro m _ _ i h1 h2
    omega
  | succ n ih =>
    intro m hm hw i h1 h2
    rw [bit_mask_loop] at hm
    cases hv : bit_mask_loop w s n with
    | none =>
      rw [hv] at hm
      cases hm
    | some v =>
      cases hz : cpp_shl1 (s + n) with
      | none =>
        rw [hv, hz] at hm
        cases hm
      | some z =>
        rw [hv, hz] at hm
        have hm2 : m = v ||| cpp_cast w z := by
          cases hm
          rfl
        subst hm2
        rw [Nat.testBit_or]
        rcases Nat.lt_or_ge i (s + n) with hlt | hge
        · rw [ih v hv (by omega) i h1 hlt]
          rfl
        · have hie : i = s + n := by omega
          subst hie
          rw [cpp_term_testBit w (s + n) (by omega) hz]
          simp

/-- A compiling `bit_mask` instantiation satisfies its `requires` clause. -/
theorem bit_mask_bounds {w s c m : Nat} (h : bit_mask w s c = some m) :
    0 < c ∧ s + c ≤ w := by
  by_cases hg : 0 < c ∧ s + c ≤ w
  · exact hg
  · rw [bit_mask, if_neg hg] at h
    cases h

/-- Every bit of the requested range `[s, s + c)` is set in a compiling
`bit_mask` value. -/
theorem bit_mask_testBit {w s c m : Nat} (h : bit_mask w s c = some m) :
    ∀ i, s ≤ i → i < s + c → m.testBit i = true := by
  obtain ⟨h1, h2⟩ := bit_mask_bounds h
  rw [bit_mask, if_pos ⟨h1, h2⟩] at h
  exact bit_mask_loop_testBit w s c m h h2

/-- A concrete call-site strategy always wins the strategy merge. -/
theorem effective_strategy_of_ne (d s : assignment_strategy)
    (h : s ≠ assignment_strategy.no_override) : effective_strategy d s = s := by
  rw [effective_strategy, if_neg h]

/-- A value whose bits all lie in `[eo, eo + nbits)` has each set bit inside
that range. -/
theorem in_range_testBit {value eo nbits : Nat}
    (hv : value &&& ((2 ^ nbits - 1) <<< eo) = value) :
    ∀ i, value.testBit i = true → eo ≤ i ∧ i < eo + nbits := by
  intro i hb
  have h := congrArg (fun t => Nat.testBit t i) hv
  simp only [Nat.testBit_and, Nat.testBit_shiftLeft, Nat.testBit_two_pow_sub_one] at h
  rw [hb] at h
  simp only [Bool.true_and] at h
  rw [Bool.and_eq_true, decide_eq_true_eq, decide_eq_true_eq] at h
  omega

/-- Masking an in-range value with the (possibly over-wide) computed bit mask
is the identity, because the computed mask contains at least the requested
range of bits. -/
theorem in_range_and_mask {wV value eo nbits mV : Nat}
    (hmV : bit_mask wV eo nbits = some mV)
    (hv : value &&& ((2 ^ nbits - 1) <<< eo) = value) :
    value &&& mV = value := by
  apply Nat.eq_of_testBit_eq
  intro i
  rw [Nat.testBit_and]
  cases hb : value.testBit i with
  | false => simp
  | true =>
    obtain ⟨hle, hlt⟩ := in_range_testBit hv i hb
    rw [bit_mask_testBit hmV i hle hlt]
    simp

/-- An in-range value passes the `return_bool` / `exception` validity check:
no bit survives conjunction with the complement of the computed mask. -/
theorem in_range_check {wV value eo nbits mV : Nat}
    (hmV : bit_mask wV eo nbits = some mV)
    (hv : value &&& ((2 ^ nbits - 1) <<< eo) = value) :
    value &&& ((2 ^ wV - 1) ^^^ mV) = 0 := by
  obtain ⟨_, hwV⟩ := bit_mask_bounds hmV
  apply Nat.eq_of_testBit_eq
  intro i
  rw [Nat.testBit_and, Nat.testBit_xor, Nat.testBit_two_pow_sub_one, Nat.zero_testBit]
  cases hb : value.testBit i with
  | false => simp
  | true =>
    obtain ⟨hle, hlt⟩ := in_range_testBit hv i hb
    have hiw : i < wV := by omega
    rw [bit_mask_testBit hmV i hle hlt]
    simp [hiw]

/-- Closed form of a compiling `extract_bits` call with `BSkipMask` true. -/
theorem extract_bits_true_eq {nbits eo wV wS foffset value mV : Nat}
    (hmV : bit_mask wV eo nbits = some mV) (hS : nbits + foffset ≤ wS) :
    extract_bits nbits eo wV wS foffset true value
      = some (if eo = foffset then value % 2 ^ wS
              else if foffset < eo then (value >>> (eo - foffset)) % 2 ^ wS
              else ((value % 2 ^ wS) <<< (foffset - eo)) % 2 ^ wS) := by
  obtain ⟨hc, hw⟩ := bit_mask_bounds hmV
  rw [extract_bits, if_pos ⟨hc, by omega, hS⟩, hmV]
  by_cases h1 : eo = foffset
  · simp [h1]
  · by_cases h2 : foffset < eo
    · simp [h1, h2]
    · simp [h1, h2]

/-- For a value unchanged by the computed mask, skipping the mask does not
change the result of `extract_bits`. -/
theorem extract_bits_skip_eq {nbits eo wV wS foffset value mV : Nat}
    (hmV : bit_mask wV eo nbits = some mV)
    (hvm : value &&& mV = value) (hS : nbits + foffset ≤ wS) :
    extract_bits nbits eo wV wS foffset false value
      = extract_bits nbits eo wV wS foffset true value := by
  obtain ⟨hc, hw⟩ := bit_mask_bounds hmV
  rw [extract_bits, extract_bits, if_pos ⟨hc, by omega, hS⟩, if_pos ⟨hc, by omega, hS⟩, hmV]
  simp [hvm]

/-- Closed form of `set_helper` with `skip_mask` true, when both mask
instantiations compile. -/
theorem set_helper_true_eq {nbits foffset wS wV eo into value mS mV : Nat}
    (hmS : bit_mask wS foffset nbits = some mS)
    (hmV : bit_mask wV eo nbits = some mV) :
    set_helper nbits foffset wS wV eo true into value
      = some ((into &&& ((2 ^ wS - 1) ^^^ mS)) |||
          (if eo = foffset then value % 2 ^ wS
           else if foffset < eo then (value >>> (eo - foffset)) % 2 ^ wS
           else ((value % 2 ^ wS) <<< (foffset - eo)) % 2 ^ wS)) := by
  obtain ⟨_, hwS⟩ := bit_mask_bounds hmS
  rw [set_helper, hmS, extract_bits_true_eq hmV (by omega)]

/-- The sequential allocator of bit_field_builder.hpp never fails while the
declared bits fit the storage width, and it places every field exactly at the
running sum of the bit counts of all earlier declarations. -/
theorem alloc_fields_eq (w : Nat) :
    ∀ (ds : List field_decl) (c : Nat), c + total_bits ds ≤ w →
      alloc_fields w c ds = some (c + total_bits ds, spec_field_offsets c ds) := by
  intro ds
  induction ds with
  | nil =>
    intro c h
    simp [alloc_fields, total_bits, spec_field_offsets]
  | cons d ds ih =>
    intro c h
    cases d with
    | field b =>
      have hb : c + b ≤ w := by
        simp only [total_bits, decl_bits] at h
        omega
      have hrec : (c + b) + total_bits ds ≤ w := by
        simp only [total_bits, decl_bits] at h
        omega
      simp only [alloc_fields, if_pos hb, ih (c + b) hrec, total_bits, decl_bits,
        spec_field_offsets]
      rw [Nat.add_assoc]
    | pad b =>
      have hrec : (c + b) + total_bits ds ≤ w := by
        simp only [total_bits, decl_bits] at h
        omega
      simp only [alloc_fields, ih (c + b) hrec, total_bits, decl_bits, spec_field_offsets]
      rw [Nat.add_assoc]

/-- Claim C1: bit relocation is NOT exact for every wide-enough pair of scalar
types.  Moving 1 bit from offset 31 of a 64-bit source to offset 0 of a 64-bit
destination, with source `2 ^ 32` whose bit 31 is clear, must yield 0 by the
claim; the code yields 2, because `bit_mask` computes its mask from
`static_cast<uint64_t>(1 << 31)`, which sign-extends into bits 32..63 and lets
bit 32 of the source leak through the mask into the shifted result. -/
theorem c1_extract_bits_not_exact_on_64_bit :
    extract_bits 1 31 64 64 0 false (2 ^ 32) = some 2
    ∧ Nat.testBit (2 ^ 32) 31 = false := by
  constructor
  · decide
  · decide

/-- Claim C3: the checked strategies do NOT succeed exactly on in-range values.
With a 64-bit value type and a field of 1 bit at merged offset 31 (call-site
offset `no_shift`), the value `2 ^ 31 + 2 ^ 32` has bit 32 outside the field
width, so the claim demands failure with storage untouched; the code validity
check uses the complement of the sign-extended `bit_mask`, misses bits 32..63,
reports success and writes bit 32 into the storage word under both
`return_bool` and `exception`. -/
theorem c3_checked_set_accepts_out_of_range :
    set_impl 1 31 64 64 default_config
        ⟨none, no_shift, assignment_strategy.return_bool⟩ 0 (2 ^ 31 + 2 ^ 32)
      = some (true, 2 ^ 31 + 2 ^ 32)
    ∧ set_impl 1 31 64 64 default_config
        ⟨none, no_shift, assignment_strategy.exception⟩ 0 (2 ^ 31 + 2 ^ 32)
      = some (true, 2 ^ 31 + 2 ^ 32)
    ∧ (2 ^ 31 + 2 ^ 32) &&& ((2 ^ 64 - 1) ^^^ ((2 ^ 1 - 1) <<< 31)) ≠ 0 := by
  refine ⟨by decide, by decide, by decide⟩

/-- Claim C4: the mask-strategy round trip `get(set(s, v)) = v & (2 ^ bits - 1)`
fails.  For a 32-bit field at offset 0 of a 64-bit storage word under the
default configuration, `bit_mask` computes an all-ones 64-bit mask (bit 31
sign-extends across bits 32..63), so `set` writes `v = 2 ^ 40` unmasked and
`get` returns `2 ^ 40`, while the claim demands `2 ^ 40 & (2 ^ 32 - 1) = 0`. -/
theorem c4_mask_round_trip_fails_on_64_bit :
    set_impl 32 0 64 64 default_config default_config 0 (2 ^ 40) = some (true, 2 ^ 40)
    ∧ bit_field_get 32 0 default_config 64 default_config (2 ^ 40) = some (2 ^ 40)
    ∧ (2 ^ 40 : Nat) &&& (2 ^ 32 - 1) ≠ 2 ^ 40 := by
  refine ⟨by decide, by decide, by decide⟩

/-- Claim C5: `bit_mask` is neither exact nor accepted on its whole stated
domain.  With a 64-bit type, `bit_mask<uint64_t, 31, 1>` compiles but equals
`2 ^ 64 - 2 ^ 31` (bits 31..63 all set) instead of `2 ^ 31`, because
`1 << 31` is computed at type int and sign-extends when cast to 64 bits; and
`bit_mask<uint64_t, 32, 1>` is rejected at definition time (the int shift is
undefined behavior in a constant expression) although `count > 0` and
`start + count ≤ 64` both hold. -/
theorem c5_bit_mask_wrong_on_64_bit :
    bit_mask 64 31 1 = some (2 ^ 64 - 2 ^ 31)
    ∧ (2 ^ 64 - 2 ^ 31 : Nat) ≠ 2 ^ 31
    ∧ bit_mask 64 32 1 = none := by
  refine ⟨by decide, by decide, by decide⟩

/-- Claim C7: a mask-strategy `set` can modify bits outside the field span.
For a 1-bit field at offset 31 of a 64-bit storage word, the clearing step
`storage & ~bit_mask<uint64_t, 31, 1>` uses the sign-extended mask and erases
bits 32..63: writing value 0 into storage `2 ^ 40` zeroes bit 40, which lies
outside the span `[31, 32)`. -/
theorem c7_mask_set_clobbers_outside_span :
    set_impl 1 31 64 64 default_config default_config (2 ^ 40) 0 = some (true, 0)
    ∧ Nat.testBit (2 ^ 40) 40 = true
    ∧ Nat.testBit 0 40 = false := by
  refine ⟨by decide, by decide, by decide⟩

/-- Claim C10: `get` is NOT a function of the field span alone.  For a 1-bit
field at offset 31 of a 64-bit word read at destination offset 0, the inputs
`2 ^ 40` and `0` agree on the whole span `[31, 32)` (bit 31 clear in both),
yet `get` returns 512 and 0 respectively: the sign-extended mask lets bit 40
of the input survive into the right-shifted result. -/
theorem c10_get_reads_bits_outside_span :
    bit_field_get 1 31 default_config 64 default_config (2 ^ 40) = some 512
    ∧ bit_field_get 1 31 default_config 64 default_config 0 = some 0
    ∧ Nat.testBit (2 ^ 40) 31 = Nat.testBit 0 31 := by
  refine ⟨by decide, by decide, by decide⟩

/-- Claim C8: the worked 32-bit scenario of the documentation holds.  The
layout `field1 = bits[0,5)`, `field2 = bits[5,7)` returned as a byte with no
shift, 22 bits of padding, `field3 = bits[29,32)` allocates offsets 0, 5, 29
and is complete; reading the storage word `0xE000007F` yields `field1 = 31`,
`field2 = 0b01100000` as a byte, `field3 = 0b111`; and setting those three
values on a zeroed word rebuilds exactly `0xE000007F`. -/
theorem c8_worked_scenario :
    alloc_fields 32 0 [field_decl.field 5, field_decl.field 2, field_decl.pad 22,
        field_decl.field 3]
      = some (32, [(5, 0), (2, 5), (3, 29)])
    ∧ is_complete 32 [field_decl.field 5, field_decl.field 2, field_decl.pad 22,
        field_decl.field 3] = some true
    ∧ bit_field_get 5 0 (make_config default_config none) 32 default_config 0xE000007F
      = some 31
    ∧ bit_field_get 2 5
        (make_config default_config (some ⟨some 8, no_shift, assignment_strategy.no_override⟩))
        32 default_config 0xE000007F = some 0x60
    ∧ bit_field_get 3 29 (make_config default_config none) 32 default_config 0xE000007F
      = some 0x7
    ∧ set_impl 5 0 32 32 (make_config default_config none) default_config 0 31
      = some (true, 31)
    ∧ set_impl 2 5 32 8
        (make_config default_config (some ⟨some 8, no_shift, assignment_strategy.no_override⟩))
        default_config 31 0x60 = some (true, 0x7F)
    ∧ set_impl 3 29 32 32 (make_config default_config none) default_config 0x7F 0x7
      = some (true, 0xE000007F) := by
  refine ⟨by decide, by decide, by decide, by decide, by decide, by decide, by decide, by decide⟩

/-- Claim C2: in a layout whose declared bits fit the storage width, the offset
of each field equals the sum of the bit counts of all earlier declarations
(padding included, starting at 0, the order of `spec_field_offsets`), and
`is_complete` is true exactly when the declared bits and padding sum to the
storage width. -/
theorem c2_sequential_layout (w : Nat) (ds : List field_decl) (h : total_bits ds ≤ w) :
    alloc_fields w 0 ds = some (total_bits ds, spec_field_offsets 0 ds)
    ∧ (is_complete w ds = some true ↔ total_bits ds = w) := by
  have halloc := alloc_fields_eq w ds 0 (by omega)
  rw [Nat.zero_add] at halloc
  refine ⟨halloc, ?_⟩
  rw [is_complete, halloc]
  simp

/-- Witness for claim C2 at the worked layout of the documentation. -/
theorem c2_sequential_layout_witness :
    total_bits [field_decl.field 5, field_decl.field 2, field_decl.pad 22,
        field_decl.field 3] ≤ 32
    ∧ (alloc_fields 32 0 [field_decl.field 5, field_decl.field 2, field_decl.pad 22,
          field_decl.field 3]
        = some (total_bits [field_decl.field 5, field_decl.field 2, field_decl.pad 22,
            field_decl.field 3],
          spec_field_offsets 0 [field_decl.field 5, field_decl.field 2, field_decl.pad 22,
            field_decl.field 3])
      ∧ (is_complete 32 [field_decl.field 5, field_decl.field 2, field_decl.pad 22,
            field_decl.field 3] = some true
        ↔ total_bits [field_decl.field 5, field_decl.field 2, field_decl.pad 22,
            field_decl.field 3] = 32)) :=
  ⟨by decide,
   c2_sequential_layout 32
     [field_decl.field 5, field_decl.field 2, field_decl.pad 22, field_decl.field 3]
     (by decide)⟩

/-- Offset congruence for `bit_field_get`: the call-site config offset enters
the result only through `effective_offset`. -/
theorem bit_field_get_offset_congr (nbits fo wS v c1 c2 : Nat)
    (dflt : bit_field_config) (tw : Option Nat)
    (h : effective_offset fo dflt.offset c1 = effective_offset fo dflt.offset c2) :
    bit_field_get nbits fo dflt wS ⟨tw, c1, assignment_strategy.no_override⟩ v
      = bit_field_get nbits fo dflt wS ⟨tw, c2, assignment_strategy.no_override⟩ v := by
  dsimp only [bit_field_get, effective_storage]
  rw [h]

/-- Offset congruence for `set_impl`: the call-site config offset enters the
result only through `effective_offset`. -/
theorem set_impl_offset_congr (nbits fo wS wV into v c1 c2 : Nat)
    (dflt : bit_field_config) (s : assignment_strategy)
    (h : effective_offset fo dflt.offset c1 = effective_offset fo dflt.offset c2) :
    set_impl nbits fo wS wV dflt ⟨none, c1, s⟩ into v
      = set_impl nbits fo wS wV dflt ⟨none, c2, s⟩ into v := by
  dsimp only [set_impl]
  rw [h]

/-- Claim C6: the effective offset of a `get` or `set` call is resolved
through three layers, highest priority first (call-site config, field default,
process-wide default 0); at either of the first two layers the `no_shift`
sentinel resolves to the field storage offset and `no_override` defers to the
next layer; the two sentinels are distinct values and are never conflated:
`no_shift` survives the field-default merge of `make_config`, and a `get` or
`set` call whose call-site offset is `no_shift` behaves exactly like one whose
call-site offset is the field storage offset itself, independently of whatever
field default is in effect. -/
theorem c6_three_layer_offset_merge :
    no_shift ≠ no_override
    ∧ (∀ fo d c : Nat,
        (c ≠ no_override → c ≠ no_shift → effective_offset fo d c = c)
        ∧ (c = no_shift → effective_offset fo d c = fo)
        ∧ (c = no_override → d = no_shift → effective_offset fo d c = fo)
        ∧ (c = no_override → d ≠ no_override → d ≠ no_shift → effective_offset fo d c = d)
        ∧ (c = no_override → d = no_override → effective_offset fo d c = 0))
    ∧ (∀ (dflt g : bit_field_config), g.offset = no_shift →
        (make_config dflt (some g)).offset = no_shift)
    ∧ (∀ (nbits fo wS v : Nat) (dflt : bit_field_config) (tw : Option Nat),
        fo ≠ no_override → fo ≠ no_shift →
        bit_field_get nbits fo dflt wS ⟨tw, no_shift, assignment_strategy.no_override⟩ v
          = bit_field_get nbits fo dflt wS ⟨tw, fo, assignment_strategy.no_override⟩ v)
    ∧ (∀ (nbits fo wS wV into v : Nat) (dflt : bit_field_config)
          (s : assignment_strategy),
        fo ≠ no_override → fo ≠ no_shift →
        set_impl nbits fo wS wV dflt ⟨none, no_shift, s⟩ into v
          = set_impl nbits fo wS wV dflt ⟨none, fo, s⟩ into v) := by
  refine ⟨by decide, ?_, ?_, ?_, ?_⟩
  · intro fo d c
    refine ⟨?_, ?_, ?_, ?_, ?_⟩
    · intro h1 h2
      rw [effective_offset, if_neg h1, if_neg h2]
    · intro h1
      subst h1
      rw [effective_offset, if_neg (by decide), if_pos rfl]
    · intro h1 h2
      subst h1
      subst h2
      rw [effective_offset, if_pos rfl, if_neg (by decide), if_pos rfl]
    · intro h1 h2 h3
      subst h1
      rw [effective_offset, if_pos rfl, if_neg h2, if_neg h3]
    · intro h1 h2
      subst h1
      subst h2
      rw [effective_offset, if_pos rfl, if_pos rfl]
  · intro dflt g hg
    simp only [make_config, hg]
    rw [if_pos (by decide)]
  · intro nbits fo wS v dflt tw h1 h2
    apply bit_field_get_offset_congr
    have e1 : effective_offset fo dflt.offset no_shift = fo := by
      rw [effective_offset, if_neg (by decide), if_pos rfl]
    have e2 : effective_offset fo dflt.offset fo = fo := by
      rw [effective_offset, if_neg h1, if_neg h2]
    rw [e1, e2]
  · intro nbits fo wS wV into v dflt s h1 h2
    apply set_impl_offset_congr
    have e1 : effective_offset fo dflt.offset no_shift = fo := by
      rw [effective_offset, if_neg (by decide), if_pos rfl]
    have e2 : effective_offset fo dflt.offset fo = fo := by
      rw [effective_offset, if_neg h1, if_neg h2]
    rw [e1, e2]

/-- Witness for claim C6 at concrete offsets: each merge layer observed on a
field whose storage offset is 5, and the call-level no-shift independence
observed on a 3-bit field at offset 5 of a 16-bit word. -/
theorem c6_three_layer_offset_merge_witness :
    effective_offset 5 no_override no_override = 0
    ∧ effective_offset 5 no_shift no_override = 5
    ∧ effective_offset 5 7 no_override = 7
    ∧ effective_offset 5 7 no_shift = 5
    ∧ effective_offset 5 7 9 = 9
    ∧ bit_field_get 3 5 default_config 16 ⟨none, no_shift, assignment_strategy.no_override⟩ 100
      = bit_field_get 3 5 default_config 16 ⟨none, 5, assignment_strategy.no_override⟩ 100
    ∧ set_impl 3 5 16 16 default_config ⟨none, no_shift, assignment_strategy.mask⟩ 0 7
      = set_impl 3 5 16 16 default_config ⟨none, 5, assignment_strategy.mask⟩ 0 7 :=
  ⟨(c6_three_layer_offset_merge.2.1 5 no_override no_override).2.2.2.2 rfl rfl,
   (c6_three_layer_offset_merge.2.1 5 no_shift no_override).2.2.1 rfl rfl,
   (c6_three_layer_offset_merge.2.1 5 7 no_override).2.2.2.1 rfl (by decide) (by decide),
   (c6_three_layer_offset_merge.2.1 5 7 no_shift).2.1 rfl,
   (c6_three_layer_offset_merge.2.1 5 7 9).1 (by decide) (by decide),
   c6_three_layer_offset_merge.2.2.2.1 3 5 16 100 default_config none
     (by decide) (by decide),
   c6_three_layer_offset_merge.2.2.2.2 3 5 16 16 0 7 default_config
     assignment_strategy.mask (by decide) (by decide)⟩

/-- Unfolding of `set_impl` at a call-site `unchecked` strategy. -/
theorem set_impl_unchecked_eq (nbits foffset wS wV co into value : Nat)
    (dflt : bit_field_config) :
    set_impl nbits foffset wS wV dflt ⟨none, co, assignment_strategy.unchecked⟩ into value
      = Option.map (fun st => (true, st))
          (set_helper nbits foffset wS wV (effective_offset foffset dflt.offset co)
            true into value) := rfl

/-- Unfolding of `set_impl` at a call-site `mask` strategy. -/
theorem set_impl_mask_eq (nbits foffset wS wV co into value : Nat)
    (dflt : bit_field_config) :
    set_impl nbits foffset wS wV dflt ⟨none, co, assignment_strategy.mask⟩ into value
      = Option.map (fun st => (true, st))
          (set_helper nbits foffset wS wV (effective_offset foffset dflt.offset co)
            false into value) := rfl

/-- Unfolding of `set_impl` at a call-site `return_bool` strategy with a
compiling value mask. -/
theorem set_impl_return_bool_eq (nbits foffset wS wV co into value mV : Nat)
    (dflt : bit_field_config)
    (hm : bit_mask wV (effective_offset foffset dflt.offset co) nbits = some mV) :
    set_impl nbits foffset wS wV dflt ⟨none, co, assignment_strategy.return_bool⟩ into value
      = if value &&& ((2 ^ wV - 1) ^^^ mV) ≠ 0 then some (false, into)
        else Option.map (fun st => (true, st))
          (set_helper nbits foffset wS wV (effective_offset foffset dflt.offset co)
            true into value) := by
  have h0 : set_impl nbits foffset wS wV dflt
      ⟨none, co, assignment_strategy.return_bool⟩ into value
      = match bit_mask wV (effective_offset foffset dflt.offset co) nbits with
        | some m =>
          if value &&& ((2 ^ wV - 1) ^^^ m) ≠ 0 then some (false, into)
          else Option.map (fun st => (true, st))
            (set_helper nbits foffset wS wV (effective_offset foffset dflt.offset co)
              true into value)
        | none => none := rfl
  rw [h0, hm]

/-- Unfolding of `set_impl` at a call-site `exception` strategy with a
compiling value mask. -/
theorem set_impl_exception_eq (nbits foffset wS wV co into value mV : Nat)
    (dflt : bit_field_config)
    (hm : bit_mask wV (effective_offset foffset dflt.offset co) nbits = some mV) :
    set_impl nbits foffset wS wV dflt ⟨none, co, assignment_strategy.exception⟩ into value
      = if value &&& ((2 ^ wV - 1) ^^^ mV) ≠ 0 then some (false, into)
        else Option.map (fun st => (true, st))
          (set_helper nbits foffset wS wV (effective_offset foffset dflt.offset co)
            true into value) := by
  have h0 : set_impl nbits foffset wS wV dflt
      ⟨none, co, assignment_strategy.exception⟩ into value
      = match bit_mask wV (effective_offset foffset dflt.offset co) nbits with
        | some m =>
          if value &&& ((2 ^ wV - 1) ^^^ m) ≠ 0 then some (false, into)
          else Option.map (fun st => (true, st))
            (set_helper nbits foffset wS wV (effective_offset foffset dflt.offset co)
              true into value)
        | none => none := rfl
  rw [h0, hm]

/-- Claim C9: all four assignment strategies agree on in-range values.  For
any field and any call-site offset whose mask instantiations compile, and any
value whose bits all lie inside the field width at the merged offset, the
`unchecked`, `mask`, `return_bool` and `exception` strategies produce the same
final storage word, and the checked strategies succeed (`return_bool` returns
true, `exception` does not throw). -/
theorem c9_strategies_agree_on_in_range (wS wV nbits foffset co into value mS mV : Nat)
    (dflt : bit_field_config)
    (hmS : bit_mask wS foffset nbits = some mS)
    (hmV : bit_mask wV (effective_offset foffset dflt.offset co) nbits = some mV)
    (hv : value &&& ((2 ^ nbits - 1) <<< effective_offset foffset dflt.offset co) = value) :
    set_impl nbits foffset wS wV dflt ⟨none, co, assignment_strategy.mask⟩ into value
      = set_impl nbits foffset wS wV dflt ⟨none, co, assignment_strategy.unchecked⟩ into value
    ∧ set_impl nbits foffset wS wV dflt ⟨none, co, assignment_strategy.return_bool⟩ into value
      = set_impl nbits foffset wS wV dflt ⟨none, co, assignment_strategy.unchecked⟩ into value
    ∧ set_impl nbits foffset wS wV dflt ⟨none, co, assignment_strategy.exception⟩ into value
      = set_impl nbits foffset wS wV dflt ⟨none, co, assignment_strategy.unchecked⟩ into value
    ∧ Option.map Prod.fst
        (set_impl nbits foffset wS wV dflt ⟨none, co, assignment_strategy.unchecked⟩ into value)
      = some true := by
  obtain ⟨_, hwS⟩ := bit_mask_bounds hmS
  have hvm : value &&& mV = value := in_range_and_mask hmV hv
  have hchk : value &&& ((2 ^ wV - 1) ^^^ mV) = 0 := in_range_check hmV hv
  have hskip := @extract_bits_skip_eq nbits (effective_offset foffset dflt.offset co) wV wS
    foffset value mV hmV hvm (by omega)
  have hsome := @set_helper_true_eq nbits foffset wS wV
    (effective_offset foffset dflt.offset co) into value mS mV hmS hmV
  refine ⟨?_, ?_, ?_, ?_⟩
  · rw [set_impl_mask_eq, set_impl_unchecked_eq, set_helper, set_helper, hskip]
  · rw [set_impl_return_bool_eq nbits foffset wS wV co into value mV dflt hmV,
      if_neg (not_not_intro hchk), set_impl_unchecked_eq]
  · rw [set_impl_exception_eq nbits foffset wS wV co into value mV dflt hmV,
      if_neg (not_not_intro hchk), set_impl_unchecked_eq]
  · rw [set_impl_unchecked_eq, hsome]
    rfl

/-- Witness for claim C9: a 3-bit field at offset 2 of an 8-bit word, call-site
offset 0, initial storage 255, in-range value 5 — all strategies agree and the
checked ones succeed. -/
theorem c9_strategies_agree_on_in_range_witness :
    set_impl 3 2 8 8 default_config ⟨none, 0, assignment_strategy.mask⟩ 255 5
      = set_impl 3 2 8 8 default_config ⟨none, 0, assignment_strategy.unchecked⟩ 255 5
    ∧ set_impl 3 2 8 8 default_config ⟨none, 0, assignment_strategy.return_bool⟩ 255 5
      = set_impl 3 2 8 8 default_config ⟨none, 0, assignment_strategy.unchecked⟩ 255 5
    ∧ set_impl 3 2 8 8 default_config ⟨none, 0, assignment_strategy.exception⟩ 255 5
      = set_impl 3 2 8 8 default_config ⟨none, 0, assignment_strategy.unchecked⟩ 255 5
    ∧ Option.map Prod.fst
        (set_impl 3 2 8 8 default_config ⟨none, 0, assignment_strategy.unchecked⟩ 255 5)
      = some true :=
  c9_strategies_agree_on_in_range 8 8 3 2 0 255 5 28 7 default_config
    (by decide) (by decide) (by decide)
